import Mathlib

/-!
Verification of the consensus core of the coinkit repository
(`network/scp.go`, `util/operation.go`).

The Go code is embedded shallowly: every Go function becomes a pure Lean
function on an explicit state value, Go `nil` pointers become `Option`,
Go maps become association lists iterated in list order, Go `int` becomes
`Int`, and a Go `panic` becomes an `Option`/`Except` failure value.

Helper types that `scp.go` uses but that live in a file not included in
the sources (SlotValue, QuorumSlice, MeetsQuorum, the four message types
and their predicates) are modelled from the specification document and
each carry a doc comment saying so.
-/

namespace Coinkit

/-- Modelled from the spec: `SlotValue` is an opaque token with a total
equality and a canonical ordering (the repository builds slot values from
comment strings), so we realize it as a string. -/
abbrev SlotValue := String

/-- Modelled from the spec: slot-value equality (`Equal` in the sources). -/
def Equal (a b : SlotValue) : Bool := a == b

/-- Modelled from the spec: `MakeSlotValue` wraps a comment string as a
slot value. -/
def MakeSlotValue (comment : String) : SlotValue := comment

/-- Modelled from the spec: `HasSlotValue` tests membership of a slot value
in a list of slot values. -/
def HasSlotValue (l : List SlotValue) (v : SlotValue) : Bool :=
  l.any (fun w => Equal w v)

/-- Strict order on character lists, used for the canonical order on slot
values (comparing code points lexicographically). -/
def charListLt : List Char → List Char → Bool
  | [], [] => false
  | [], _ :: _ => true
  | _ :: _, [] => false
  | a :: as, b :: bs =>
    if a.toNat < b.toNat then true
    else if b.toNat < a.toNat then false
    else charListLt as bs

/-- Modelled from the spec: the canonical (total) order on slot values. -/
def slotValueLt (a b : SlotValue) : Bool := charListLt a.data b.data

/-- Modelled from the spec: `Combine` is a deterministic commutative merge
of two slot values. Only `CombineSlice [v] = v` matters for the claims. -/
def Combine (a b : SlotValue) : SlotValue :=
  if slotValueLt b a then b ++ a else a ++ b

/-- Modelled from the spec: `CombineSlice` folds `Combine` over a nonempty
list; the sources never call it on an empty list. -/
def CombineSlice : List SlotValue → SlotValue
  | [] => ""
  | [v] => v
  | v :: w :: rest => Combine v (CombineSlice (w :: rest))

/-- Modelled from the spec: a node's quorum-slice declaration
`(members, threshold)`. -/
structure QuorumSlice where
  Members : List String
  Threshold : Nat
deriving DecidableEq, Repr

/-- Modelled from the spec: `S` satisfies the slice iff at least
`threshold` members are in `S`. -/
def QuorumSlice.SatisfiedBy (qs : QuorumSlice) (S : List String) : Bool :=
  decide (qs.Threshold ≤ (qs.Members.filter (fun mem => S.contains mem)).length)

/-- Modelled from the spec: `S` blocks the slice iff fewer than `threshold`
members remain outside `S`. -/
def QuorumSlice.BlockedBy (qs : QuorumSlice) (S : List String) : Bool :=
  decide ((qs.Members.filter (fun mem => !(S.contains mem))).length < qs.Threshold)

/-- Modelled from the spec: one removal pass of the quorum fixed-point
computation, keeping only nodes whose slice is defined and satisfied by
the current set. -/
def quorumFilterStep (lookup : String → Option QuorumSlice) (Q : List String) : List String :=
  Q.filter (fun u => match lookup u with
    | some qs => qs.SatisfiedBy Q
    | none => false)

/-- Modelled from the spec: iterate the removal pass to a fixed point;
`fuel` bounds the iterations (the set shrinks strictly until fixed). -/
def quorumFilterIter (lookup : String → Option QuorumSlice) : Nat → List String → List String
  | 0, Q => Q
  | fuel+1, Q =>
    let Qn := quorumFilterStep lookup Q
    if Qn.length = Q.length then Q else quorumFilterIter lookup fuel Qn

/-- Modelled from the spec: `MeetsQuorum(v, S)` starts from `S ∪ {v}`
restricted to nodes with a defined slice, runs the removal pass to a fixed
point, and accepts iff `v` survives. -/
def MeetsQuorum (lookup : String → Option QuorumSlice) (pk : String) (S : List String) : Bool :=
  let Q0 := ((pk :: S).dedup).filter (fun u => (lookup u).isSome)
  (quorumFilterIter lookup Q0.length Q0).contains pk

/-- Association-list lookup (embedding of a Go map read). -/
def lookupAssoc {α : Type} : List (String × α) → String → Option α
  | [], _ => none
  | (k', v) :: rest, k => if k' = k then some v else lookupAssoc rest k

/-- Association-list update (embedding of a Go map write). -/
def updateAssoc {α : Type} : List (String × α) → String → α → List (String × α)
  | [], k, v => [(k, v)]
  | (k', v') :: rest, k, v =>
    if k' = k then (k, v) :: rest else (k', v') :: updateAssoc rest k v

/-- Modelled from the spec: the nomination broadcast, carrying the slot,
the voted set `X`, the accepted set `Y` and the sender's slice. -/
structure NominationMessage where
  I : Int
  X : List SlotValue
  Y : List SlotValue
  D : QuorumSlice
deriving DecidableEq, Repr

/-- Per-slot nomination state, from `scp.go`. -/
structure NominationState where
  X : List SlotValue
  Y : List SlotValue
  Z : List SlotValue
  N : List (String × NominationMessage)
  publicKey : String
  D : QuorumSlice
deriving DecidableEq, Repr

/-- `NewNominationState`, from `scp.go`. -/
def NewNominationState (publicKey : String) (qs : QuorumSlice) : NominationState :=
  { X := [], Y := [], Z := [], N := [], publicKey := publicKey, D := qs }

/-- `NominationState.HasNomination`, from `scp.go`. -/
def NominationState.HasNomination (s : NominationState) : Bool :=
  decide (0 < s.X.length)

/-- `NominationState.SetDefault`, from `scp.go`. -/
def NominationState.SetDefault (s : NominationState) (v : SlotValue) : NominationState :=
  if s.HasNomination then s else { s with X := [v] }

/-- `NominationState.PredictValue`, from `scp.go`; `none` embeds the Go
panic on three empty sets. -/
def NominationState.PredictValue (s : NominationState) : Option SlotValue :=
  if 0 < s.Z.length then some (CombineSlice s.Z)
  else if 0 < s.Y.length then some (CombineSlice s.Y)
  else if 0 < s.X.length then some (CombineSlice s.X)
  else none

/-- `NominationState.QuorumSlice`, from `scp.go`: own slice for ourselves,
otherwise the slice carried by the peer's last message. -/
def nomLookup (s : NominationState) : String → Option QuorumSlice :=
  fun node =>
    if node = s.publicKey then some s.D
    else (lookupAssoc s.N node).map (fun m => m.D)

/-- `NominationState.MaybeAdvance`, from `scp.go`: accept and/or confirm
the nomination of `v`; returns the new state and the `changed` flag. -/
def NominationState.MaybeAdvance (s : NominationState) (v : SlotValue) :
    NominationState × Bool :=
  if HasSlotValue s.Z v then (s, false)
  else
    let votedOrAccepted :=
      (if HasSlotValue s.X v then [s.publicKey] else []) ++
        (s.N.filter (fun pr => HasSlotValue pr.2.Y v || HasSlotValue pr.2.X v)).map Prod.fst
    let accepted :=
      (if HasSlotValue s.Y v then [s.publicKey] else []) ++
        (s.N.filter (fun pr => HasSlotValue pr.2.Y v)).map Prod.fst
    let accept := MeetsQuorum (nomLookup s) s.publicKey votedOrAccepted ||
      s.D.BlockedBy accepted
    let s1 := if accept && !(HasSlotValue s.Y v) then { s with Y := s.Y ++ [v] } else s
    let changed1 := accept && !(HasSlotValue s.Y v)
    if MeetsQuorum (nomLookup s1) s.publicKey accepted then
      ({ s1 with Z := s1.Z ++ [v] }, true)
    else (s1, changed1)

/-- `NominationState.Handle`, from `scp.go`: drop stale or duplicate
messages, record the message, adopt new `X` values, and advance every
newly touched value. -/
def NominationState.Handle (s : NominationState) (node : String)
    (m : NominationMessage) : NominationState :=
  let old := lookupAssoc s.N node
  let oldLenX := match old with | some o => o.X.length | none => 0
  let oldLenY := match old with | some o => o.Y.length | none => 0
  if m.X.length < oldLenX then s
  else if m.Y.length < oldLenY then s
  else if m.X.length = oldLenX ∧ m.Y.length = oldLenY then s
  else
    let s1 := { s with N := updateAssoc s.N node m }
    let tx := (m.X.drop oldLenX).foldl
      (fun (acc : List SlotValue × NominationState) xv =>
        let t := if HasSlotValue acc.1 xv then acc.1 else acc.1 ++ [xv]
        let st := if HasSlotValue acc.2.X xv then acc.2
          else { acc.2 with X := acc.2.X ++ [xv] }
        (t, st)) ([], s1)
    let touched := (m.Y.drop oldLenY).foldl
      (fun t yv => if HasSlotValue t yv then t else t ++ [yv]) tx.1
    touched.foldl (fun st v => (st.MaybeAdvance v).1) tx.2

/-- A ballot `(n, x)`, from `scp.go`; Go's `int` is embedded as `Int`. -/
structure Ballot where
  n : Int
  x : SlotValue
deriving DecidableEq, Repr

/-- The three balloting phases, from `scp.go`. -/
inductive Phase
  | Prepare
  | Confirm
  | Externalize
deriving DecidableEq, Repr

/-- Numeric index of a phase, for stating phase monotonicity. -/
def phaseIdx : Phase → Nat
  | .Prepare => 0
  | .Confirm => 1
  | .Externalize => 2

/-- Modelled from the spec: the three ballot broadcast variants
(Prepare, Confirm, Externalize) with the wire fields of §6.1. -/
inductive BallotMessage
  | prepareMsg (I Bn : Int) (Bx : SlotValue) (Pn : Int) (Px : SlotValue)
      (Ppn : Int) (Ppx : SlotValue) (Cn Hn : Int) (D : QuorumSlice)
  | confirmMsg (I : Int) (X : SlotValue) (Pn Cn Hn : Int) (D : QuorumSlice)
  | externalizeMsg (I : Int) (X : SlotValue) (Cn Hn : Int) (D : QuorumSlice)
deriving DecidableEq, Repr

/-- Modelled from the spec: the quorum slice carried by a ballot message. -/
def BallotMessage.QuorumSlice : BallotMessage → QuorumSlice
  | .prepareMsg _ _ _ _ _ _ _ _ _ d => d
  | .confirmMsg _ _ _ _ _ d => d
  | .externalizeMsg _ _ _ _ d => d

/-- Modelled from the spec: the ballot number a message carries, used by
the ballot-bump rule. -/
def BallotMessage.BallotNumber : BallotMessage → Int
  | .prepareMsg _ bn _ _ _ _ _ _ _ _ => bn
  | .confirmMsg _ _ _ _ hn _ => hn
  | .externalizeMsg _ _ _ hn _ => hn

/-- Modelled from the spec: whether the sender votes to prepare `(n, x)` —
its current ballot (or externalized value) covers `(n, x)`. -/
def BallotMessage.VoteToPrepare (m : BallotMessage) (n : Int) (x : SlotValue) : Bool :=
  match m with
  | .prepareMsg _ bn bx _ _ _ _ _ _ _ => Equal bx x && decide (n ≤ bn)
  | .confirmMsg _ xv _ _ _ _ => Equal xv x
  | .externalizeMsg _ xv _ _ _ => Equal xv x

/-- Modelled from the spec: whether the sender accepts `(n, x)` as
prepared — its recorded `p`/`p'` (or confirmed value) covers `(n, x)`. -/
def BallotMessage.AcceptAsPrepared (m : BallotMessage) (n : Int) (x : SlotValue) : Bool :=
  match m with
  | .prepareMsg _ _ _ pn px ppn ppx _ _ _ =>
    (Equal px x && decide (n ≤ pn)) || (Equal ppx x && decide (n ≤ ppn))
  | .confirmMsg _ xv pn _ _ _ => Equal xv x && decide (n ≤ pn)
  | .externalizeMsg _ xv _ _ _ => Equal xv x

/-- Modelled from the spec: whether the sender votes to commit `(n, x)` —
its `[c, h]` range of voted-commit numbers covers `n` for its value. -/
def BallotMessage.VoteToCommit (m : BallotMessage) (n : Int) (x : SlotValue) : Bool :=
  match m with
  | .prepareMsg _ _ bx _ _ _ _ cn hn _ =>
    Equal bx x && decide (cn ≠ 0) && decide (cn ≤ n) && decide (n ≤ hn)
  | .confirmMsg _ xv _ _ _ _ => Equal xv x
  | .externalizeMsg _ xv _ _ _ => Equal xv x

/-- Modelled from the spec: whether the sender accepts `(n, x)` as
committed — only Confirm and Externalize messages assert that, over their
`[c, h]` range. -/
def BallotMessage.AcceptAsCommitted (m : BallotMessage) (n : Int) (x : SlotValue) : Bool :=
  match m with
  | .prepareMsg _ _ _ _ _ _ _ _ _ _ => false
  | .confirmMsg _ xv _ cn hn _ => Equal xv x && decide (cn ≤ n) && decide (n ≤ hn)
  | .externalizeMsg _ xv cn hn _ => Equal xv x && decide (cn ≤ n) && decide (n ≤ hn)

/-- Modelled from the spec: priority of a message type in the message
total order (Prepare < Confirm < Externalize). -/
def BallotMessage.typeRank : BallotMessage → Nat
  | .prepareMsg _ _ _ _ _ _ _ _ _ _ => 0
  | .confirmMsg _ _ _ _ _ _ => 1
  | .externalizeMsg _ _ _ _ _ => 2

/-- Lexicographic comparison of integer lists, as a sign. -/
def listCompareInt : List Int → List Int → Int
  | [], [] => 0
  | [], _ :: _ => -1
  | _ :: _, [] => 1
  | a :: as, b :: bs => if a < b then -1 else if b < a then 1 else listCompareInt as bs

/-- Modelled from the spec: the ballot numbers a message carries, in the
order used to break ties between messages of the same type. -/
def BallotMessage.rankKey : BallotMessage → List Int
  | .prepareMsg _ bn _ pn _ ppn _ cn hn _ => [bn, pn, ppn, cn, hn]
  | .confirmMsg _ _ pn cn hn _ => [pn, cn, hn]
  | .externalizeMsg _ _ cn hn _ => [cn, hn]

/-- Modelled from the spec: the total order on ballot messages used to
reject stale duplicates — type priority first, then the carried ballots,
lexicographically. -/
def Compare (a b : BallotMessage) : Int :=
  if a.typeRank < b.typeRank then -1
  else if b.typeRank < a.typeRank then 1
  else listCompareInt a.rankKey b.rankKey

/-- Per-slot ballot state, from `scp.go`; null pointers become `none`. -/
structure BallotState where
  phase : Phase
  b : Option Ballot
  p : Option Ballot
  pPrime : Option Ballot
  cn : Int
  hn : Int
  z : Option SlotValue
  M : List (String × BallotMessage)
  publicKey : String
  D : QuorumSlice
deriving DecidableEq, Repr

/-- `NewBallotState`, from `scp.go`. -/
def NewBallotState (publicKey : String) (qs : QuorumSlice) : BallotState :=
  { phase := .Prepare, b := none, p := none, pPrime := none,
    cn := 0, hn := 0, z := none, M := [], publicKey := publicKey, D := qs }

/-- `BallotState.QuorumSlice`, from `scp.go`: own slice for ourselves,
otherwise the slice carried by the peer's last ballot message. -/
def balLookup (s : BallotState) : String → Option QuorumSlice :=
  fun node =>
    if node = s.publicKey then some s.D
    else (lookupAssoc s.M node).map (fun m => m.QuorumSlice)

/-- Modelled from the spec: `gtecompat o b` — the optional ballot `o` is
at least `b` and compatible with it (covers `b` as prepared). -/
def gtecompat (ob : Option Ballot) (bal : Ballot) : Bool :=
  match ob with
  | none => false
  | some a => decide (bal.n ≤ a.n) && Equal a.x bal.x

/-- The `(p, pPrime)` update at the end of `MaybeAcceptAsPrepared`
(`scp.go` keeps the top two conflicting accepted-prepared ballots), run
on the possibly-aborted intermediate state. -/
def BallotState.updatePrepared (s1 : BallotState) (n : Int) (x : SlotValue) :
    BallotState :=
  match s1.p with
  | none => { s1 with p := some ⟨n, x⟩ }
  | some pb =>
    if Equal pb.x x then { s1 with p := some ⟨n, pb.x⟩ }
    else if decide (pb.n ≤ n) then { s1 with pPrime := s1.p, p := some ⟨n, x⟩ }
    else { s1 with pPrime := some ⟨n, x⟩ }

/-- `BallotState.MaybeAcceptAsPrepared`, from `scp.go`. -/
def BallotState.MaybeAcceptAsPrepared (s : BallotState) (n : Int) (x : SlotValue) :
    BallotState :=
  if s.phase ≠ Phase.Prepare then s
  else if n = 0 then s
  else if (match s.p with
    | some pb => decide (n ≤ pb.n) && Equal pb.x x
    | none => false) then s
  else if (match s.pPrime with
    | some pb => decide (n ≤ pb.n) && Equal pb.x x
    | none => false) then s
  else if (match s.pPrime with
    | some pb => decide (n ≤ pb.n)
    | none => false) then s
  else if !(MeetsQuorum (balLookup s) s.publicKey
      ((match s.b with
        | some bb => if decide (n ≤ bb.n) && Equal bb.x x then [s.publicKey] else []
        | none => []) ++
        (s.M.filter (fun pr =>
          pr.2.AcceptAsPrepared n x || pr.2.VoteToPrepare n x)).map Prod.fst)) &&
      !(s.D.BlockedBy ((s.M.filter (fun pr => pr.2.AcceptAsPrepared n x)).map Prod.fst))
    then s
  else
    BallotState.updatePrepared
      (if (match s.b with
          | some bb => decide (s.hn ≤ n) && !(Equal bb.x x)
          | none => false)
        then { s with hn := 0, cn := 0, b := none } else s) n x

/-- `BallotState.MaybeConfirmAsPrepared`, from `scp.go`. The abort of a
conflicting `b` followed by the null-`b` adoption branch is flattened into
one branch (the aborted state always takes the null-`b` branch). -/
def BallotState.MaybeConfirmAsPrepared (s : BallotState) (n : Int) (x : SlotValue) :
    BallotState :=
  if s.phase ≠ Phase.Prepare then s
  else if n ≤ s.hn then s
  else if !(MeetsQuorum (balLookup s) s.publicKey
      ((if gtecompat s.p ⟨n, x⟩ || gtecompat s.pPrime ⟨n, x⟩ then [s.publicKey] else []) ++
        (s.M.filter (fun pr => pr.2.AcceptAsPrepared n x)).map Prod.fst)) then s
  else if (match s.b with
      | some bb => !(Equal bb.x x)
      | none => false) then
    { s with b := some ⟨n, x⟩, hn := n, cn := n, z := some x }
  else
    match s.b with
    | none => { s with b := some ⟨n, x⟩, hn := n, cn := n, z := some x }
    | some _ => { s with hn := n }

/-- `BallotState.MaybeAcceptAsCommitted`, from `scp.go`. -/
def BallotState.MaybeAcceptAsCommitted (s : BallotState) (n : Int) (x : SlotValue) :
    BallotState :=
  if s.phase = Phase.Externalize then s
  else if s.phase = Phase.Confirm ∧ s.cn ≤ n ∧ n ≤ s.hn then s
  else if !(MeetsQuorum (balLookup s) s.publicKey
      ((match s.b with
        | some bb =>
          if decide (s.phase = Phase.Prepare) && Equal bb.x x && decide (s.cn ≠ 0) &&
              decide (s.cn ≤ n) && decide (n ≤ s.hn)
          then [s.publicKey] else []
        | none => []) ++
        (s.M.filter (fun pr =>
          pr.2.AcceptAsCommitted n x || pr.2.VoteToCommit n x)).map Prod.fst)) &&
      !(s.D.BlockedBy ((s.M.filter (fun pr => pr.2.AcceptAsCommitted n x)).map Prod.fst))
    then s
  else
    match s.b with
    | none =>
      { s with phase := Phase.Confirm, b := some ⟨n, x⟩, cn := n, hn := n, z := some x }
    | some bb =>
      if !(Equal bb.x x) then
        { s with phase := Phase.Confirm, b := some ⟨n, x⟩, cn := n, hn := n, z := some x }
      else
        { s with
          phase := Phase.Confirm
          cn := (if n < s.cn then n else s.cn)
          hn := (if s.hn < n then n else s.hn) }

/-- `BallotState.MaybeConfirmAsCommitted`, from `scp.go`. -/
def BallotState.MaybeConfirmAsCommitted (s : BallotState) (n : Int) (x : SlotValue) :
    BallotState :=
  if s.phase = Phase.Prepare then s
  else match s.b with
  | none => s
  | some bb =>
    if !(Equal bb.x x) then s
    else if s.phase ≠ Phase.Confirm ∧ s.cn ≤ n ∧ n ≤ s.hn then s
    else if !(MeetsQuorum (balLookup s) s.publicKey
        ((if decide (s.phase = Phase.Confirm) && decide (s.cn ≤ n) && decide (n ≤ s.hn)
          then [s.publicKey] else []) ++
          (s.M.filter (fun pr => pr.2.AcceptAsCommitted n x)).map Prod.fst)) then s
    else if s.phase = Phase.Confirm then
      { s with phase := Phase.Externalize, cn := n, hn := n }
    else
      { s with
        cn := (if n < s.cn then n else s.cn)
        hn := (if s.hn < n then n else s.hn) }

/-- `BallotState.MaybeNextBallot`, from `scp.go`: bump the ballot number
when the peers with a strictly higher number form a blocking set. -/
def BallotState.MaybeNextBallot (s : BallotState) : Bool × BallotState :=
  match s.b, s.z with
  | some bb, some _ =>
    if s.D.BlockedBy ((s.M.filter
        (fun pr => decide (bb.n < pr.2.BallotNumber))).map Prod.fst) then
      (true, { s with b := some ⟨bb.n + 1, bb.x⟩ })
    else (false, s)
  | _, _ => (false, s)

/-- `BallotState.Investigate`, from `scp.go`: run the four checks in
order on `(n, x)`. -/
def BallotState.Investigate (s : BallotState) (n : Int) (x : SlotValue) : BallotState :=
  (((s.MaybeAcceptAsPrepared n x).MaybeConfirmAsPrepared n x).MaybeAcceptAsCommitted
    n x).MaybeConfirmAsCommitted n x

/-- The integer range `[cn, hn]` as a list, for the Externalize loop of
`BallotState.Handle`. -/
def intRangeList (cn hn : Int) : List Int :=
  (List.range (hn + 1 - cn).toNat).map (fun i => cn + i)

/-- The investigation step of `BallotState.Handle`, from `scp.go`:
investigate every ballot the stored message mentions. -/
def BallotState.InvestigateMessage (s : BallotState) (message : BallotMessage) :
    BallotState :=
  match message with
  | .prepareMsg _ bn bx pn px ppn ppx _ _ _ =>
    ((s.Investigate bn bx).Investigate pn px).Investigate ppn ppx
  | .confirmMsg _ xv _ _ hn _ => s.Investigate hn xv
  | .externalizeMsg _ xv cn hn _ =>
    (intRangeList cn hn).foldl (fun st i => st.Investigate i xv) s

/-- The investigate-then-bump loop of `BallotState.Handle`, from `scp.go`;
`fuel` bounds the iterations (each Go execution that terminates performs
some finite number of them). -/
def BallotState.HandleLoop (message : BallotMessage) : Nat → BallotState → BallotState
  | 0, s => s
  | fuel+1, s =>
    match (s.InvestigateMessage message).MaybeNextBallot with
    | (true, s2) => BallotState.HandleLoop message fuel s2
    | (false, s2) => s2

/-- `BallotState.Handle`, from `scp.go`: drop a message that is not newer
than the stored one, otherwise record it and run the loop. -/
def BallotState.Handle (s : BallotState) (fuel : Nat) (node : String)
    (message : BallotMessage) : BallotState :=
  match lookupAssoc s.M node with
  | some old =>
    if 0 ≤ Compare old message then s
    else BallotState.HandleLoop message (fuel + 1) { s with M := updateAssoc s.M node message }
  | none =>
    BallotState.HandleLoop message (fuel + 1) { s with M := updateAssoc s.M node message }

/-- `BallotState.HasMessage`, from `scp.go`. -/
def BallotState.HasMessage (s : BallotState) : Bool := s.b.isSome

/-- `BallotState.Message`, from `scp.go`: the outgoing broadcast for this
slot; `none` embeds the Go panic when `b` is null. -/
def BallotState.Message (s : BallotState) (slot : Int) (qs : QuorumSlice) :
    Option BallotMessage :=
  match s.b with
  | none => none
  | some bb =>
    match s.phase with
    | .Prepare => some (.prepareMsg slot bb.n bb.x
        (match s.p with | some pb => pb.n | none => 0)
        (match s.p with | some pb => pb.x | none => "")
        (match s.pPrime with | some pb => pb.n | none => 0)
        (match s.pPrime with | some pb => pb.x | none => "")
        s.cn s.hn qs)
    | .Confirm => some (.confirmMsg slot bb.x
        (match s.p with | some pb => pb.n | none => 0) s.cn s.hn qs)
    | .Externalize => some (.externalizeMsg slot bb.x s.cn s.hn qs)

/-- Modelled from the spec: the outgoing message sum type (a nomination
broadcast or a ballot broadcast). -/
inductive Message
  | nomination (m : NominationMessage)
  | ballot (m : BallotMessage)
deriving DecidableEq, Repr

/-- `StateBuilder`, from `scp.go`. The wall-clock `start` field is omitted:
no modelled operation reads it. `bState = none` embeds a nil pointer. -/
structure StateBuilder where
  slot : Int
  values : List (Int × SlotValue)
  nState : NominationState
  bState : Option BallotState
  D : QuorumSlice
  publicKey : String
deriving DecidableEq, Repr

/-- `NewStateBuilder`, from `scp.go`. The source's struct literal never
sets `bState`, so it is the nil pointer (`none`). -/
def NewStateBuilder (publicKey : String) (members : List String) (threshold : Nat) :
    StateBuilder :=
  let qs : QuorumSlice := { Members := members, Threshold := threshold }
  { slot := 1, values := [], nState := NewNominationState publicKey qs,
    bState := none, D := qs, publicKey := publicKey }

/-- `StateBuilder.OutgoingMessages`, from `scp.go`. The wall-clock comment
used for the default nomination is passed in as `comment`; the result is
the emitted list together with the updated builder, and `none` embeds a
runtime panic (dereferencing `bState` when it is nil). -/
def StateBuilder.OutgoingMessages (sb : StateBuilder) (comment : String) :
    Option (List Message × StateBuilder) :=
  let n1 := if !(sb.nState.HasNomination) then sb.nState.SetDefault (MakeSlotValue comment)
    else sb.nState
  let sb1 := { sb with nState := n1 }
  let base := [Message.nomination { I := sb.slot, X := n1.X, Y := n1.Y, D := sb.D }]
  match sb.bState with
  | none => none
  | some bs =>
    if bs.HasMessage then
      match bs.Message sb.slot sb.D with
      | some bm => some (base ++ [Message.ballot bm], sb1)
      | none => none
    else some (base, sb1)

/-- An operation, from `util/operation.go` and the operation types visible
in the sources (`TestingOperation` in `util/operation_test.go`,
`SendOperation` used by `network/node_test.go`), embedded as a closed
tagged variant as the spec's design notes direct. -/
inductive Operation
  | testing (number : Int) (signer : String)
  | send (signer : String) (sequence : Nat) (dest : String) (amount : Nat) (fee : Nat)
deriving DecidableEq, Repr

/-- `OperationType`, from the operation implementations. -/
def Operation.OperationType : Operation → String
  | .testing _ _ => "Testing"
  | .send _ _ _ _ _ => "Send"

/-- A JSON payload for the `O` field of an encoded operation: either the
JSON object marshalled from an operation, or the JSON literal `null`.
The `encoding/json` marshalling of a struct is embedded as the identity
on the operation value (marshalling is an external library; for the
struct types above it is faithful). -/
inductive OpPayload
  | opOf (op : Operation)
  | nullPayload
deriving DecidableEq, Repr

/-- An encoded operation: the discriminator string `T` and the raw
payload `O`, from `DecodedOperation` / `PartiallyDecodedOperation` in
`util/operation.go`. -/
structure EncodedOperation where
  T : String
  O : OpPayload
deriving DecidableEq, Repr

/-- `EncodeOperation`, from `util/operation.go`; the argument is optional
to embed the nil-pointer case, and `none` embeds the panic on nil. -/
def EncodeOperation (op : Option Operation) : Option EncodedOperation :=
  match op with
  | none => none
  | some o => some { T := o.OperationType, O := OpPayload.opOf o }

/-- `DecodeOperation`, from `util/operation.go`: fail on an unregistered
type string, fail on a payload that unmarshals to nil, otherwise return
the operation. The registry is the current contents of
`OperationTypeMap`, passed explicitly. -/
def DecodeOperation (registry : List String) (e : EncodedOperation) :
    Except String Operation :=
  if registry.contains e.T then
    match e.O with
    | OpPayload.opOf o => Except.ok o
    | OpPayload.nullPayload => Except.error "it looks like a nil operation got encoded"
  else Except.error "unregistered op type"

/-- A call against a `NominationState`, for stating properties of every
sequence of calls. -/
inductive NomEvent
  | setDefault (v : SlotValue)
  | advance (v : SlotValue)
  | handle (node : String) (m : NominationMessage)
deriving DecidableEq, Repr

/-- Apply one nomination call. -/
def nomApply (s : NominationState) : NomEvent → NominationState
  | .setDefault v => s.SetDefault v
  | .advance v => (s.MaybeAdvance v).1
  | .handle node m => s.Handle node m

/-- Run a sequence of nomination calls. -/
def nomRun (s : NominationState) (evs : List NomEvent) : NominationState :=
  evs.foldl nomApply s

/-- A `BallotState.Handle` call (fuel bounds the internal bump loop), for
stating properties of every sequence of calls. -/
structure BalEvent where
  fuel : Nat
  node : String
  message : BallotMessage
deriving DecidableEq, Repr

/-- Run a sequence of ballot `Handle` calls. -/
def balRun (s : BallotState) (evs : List BalEvent) : BallotState :=
  evs.foldl (fun st e => st.Handle e.fuel e.node e.message) s

/-- A set of nodes that is a quorum inside itself for the given slice
lookup: every member has a defined slice satisfied by the set. -/
def IsQuorumIn (lookup : String → Option QuorumSlice) (R : List String) : Prop :=
  ∀ u ∈ R, ∃ qs, lookup u = some qs ∧ qs.SatisfiedBy R = true

/-- Growth order on nomination states: every element of `X`, `Y`, `Z`
stays in the corresponding set. -/
def nomLe (s s' : NominationState) : Prop :=
  (∀ v ∈ s.X, v ∈ s'.X) ∧ (∀ v ∈ s.Y, v ∈ s'.Y) ∧ (∀ v ∈ s.Z, v ∈ s'.Z)

/-- The nomination containment invariant that survives scrutiny:
every confirmed candidate has been accepted. -/
def NomInv (s : NominationState) : Prop := ∀ v ∈ s.Z, v ∈ s.Y

/-- The prepared-ballot invariant that survives scrutiny: `p'` exists only
under `p`, and then the two are incompatible with `p'.n ≤ p.n`. -/
def PInv (s : BallotState) : Prop :=
  (s.pPrime.isSome = true → s.p.isSome = true) ∧
  (∀ pb ppb, s.p = some pb → s.pPrime = some ppb → pb.x ≠ ppb.x ∧ ppb.n ≤ pb.n)

/-- Strict lexicographic order on ballots: first the number, then the
canonical (string) order on the value. -/
def ballotLexGt (a b : Ballot) : Bool :=
  decide (b.n < a.n) || (decide (a.n = b.n) && slotValueLt b.x a.x)

/-- The `z`/`b.x` agreement invariant: whenever `b` is set, `z` is set and
holds exactly `b.x`. -/
def ZInv (s : BallotState) : Prop := ∀ bb, s.b = some bb → s.z = some bb.x

theorem length_filter_mono {l : List String} {p q : String → Bool}
    (h : ∀ a ∈ l, p a = true → q a = true) :
    (l.filter p).length ≤ (l.filter q).length := by
  induction l with
  | nil => simp
  | cons a as ih =>
    simp only [List.filter_cons]
    by_cases hp : p a = true
    · have hq := h a (by simp) hp
      simp only [hp, hq, cond_true, List.length_cons]
      exact Nat.succ_le_succ (ih fun b hb => h b (by simp [hb]))
    · simp only [Bool.not_eq_true] at hp
      simp only [hp, cond_false]
      by_cases hq : q a = true
      · simp only [hq, cond_true, List.length_cons]
        exact Nat.le_succ_of_le (ih fun b hb => h b (by simp [hb]))
      · simp only [Bool.not_eq_true] at hq
        simp only [hq, cond_false]
        exact ih fun b hb => h b (by simp [hb])

theorem satisfiedBy_mono {qs : QuorumSlice} {S S' : List String}
    (hsub : ∀ a ∈ S, a ∈ S') (h : qs.SatisfiedBy S = true) :
    qs.SatisfiedBy S' = true := by
  simp only [QuorumSlice.SatisfiedBy, decide_eq_true_eq] at h ⊢
  refine le_trans h (length_filter_mono ?_)
  intro a _ hp
  exact List.elem_iff.mpr (hsub a (List.elem_iff.mp hp))

theorem mem_quorumFilterStep {lookup : String → Option QuorumSlice}
    {Q : List String} {u : String} :
    u ∈ quorumFilterStep lookup Q ↔
      u ∈ Q ∧ ∃ qs, lookup u = some qs ∧ qs.SatisfiedBy Q = true := by
  unfold quorumFilterStep
  rw [List.mem_filter]
  constructor
  · rintro ⟨hu, hpred⟩
    refine ⟨hu, ?_⟩
    cases hl : lookup u with
    | none => rw [hl] at hpred; simp at hpred
    | some qs => rw [hl] at hpred; exact ⟨qs, rfl, hpred⟩
  · rintro ⟨hu, qs, hl, hs⟩
    refine ⟨hu, ?_⟩
    rw [hl]
    exact hs

theorem quorumFilterIter_subset (lookup : String → Option QuorumSlice) :
    ∀ (fuel : Nat) (Q : List String), ∀ u ∈ quorumFilterIter lookup fuel Q, u ∈ Q := by
  intro fuel
  induction fuel with
  | zero => intro Q u hu; simpa [quorumFilterIter] using hu
  | succ f ih =>
    intro Q u hu
    simp only [quorumFilterIter] at hu
    split at hu
    · exact hu
    · exact (mem_quorumFilterStep.mp (ih _ u hu)).1

theorem quorumFilterIter_fixed (lookup : String → Option QuorumSlice) :
    ∀ (fuel : Nat) (Q : List String), Q.length ≤ fuel →
    quorumFilterStep lookup (quorumFilterIter lookup fuel Q) =
      quorumFilterIter lookup fuel Q := by
  intro fuel
  induction fuel with
  | zero =>
    intro Q hQ
    have hn : Q = [] := List.length_eq_zero.mp (Nat.le_zero.mp hQ)
    subst hn
    rfl
  | succ f ih =>
    intro Q hQ
    simp only [quorumFilterIter]
    split
    · next heq => exact (List.filter_sublist Q).eq_of_length heq
    · next hne =>
      apply ih
      have hle : (quorumFilterStep lookup Q).length ≤ Q.length :=
        (List.filter_sublist Q).length_le
      omega

theorem quorumFilterIter_complete (lookup : String → Option QuorumSlice)
    (T : List String) (hT : IsQuorumIn lookup T) :
    ∀ (fuel : Nat) (Q : List String), (∀ u ∈ T, u ∈ Q) →
    ∀ u ∈ T, u ∈ quorumFilterIter lookup fuel Q := by
  intro fuel
  induction fuel with
  | zero => intro Q hQ u hu; simpa [quorumFilterIter] using hQ u hu
  | succ f ih =>
    intro Q hQ u hu
    simp only [quorumFilterIter]
    have hstep : ∀ w ∈ T, w ∈ quorumFilterStep lookup Q := by
      intro w hw
      rcases hT w hw with ⟨qs, hl, hs⟩
      exact mem_quorumFilterStep.mpr ⟨hQ w hw, qs, hl, satisfiedBy_mono hQ hs⟩
    split
    · exact hQ u hu
    · exact ih _ hstep u hu

theorem meetsQuorum_sound {lookup : String → Option QuorumSlice} {pk : String}
    {S : List String} (h : MeetsQuorum lookup pk S = true) :
    ∃ R, pk ∈ R ∧ IsQuorumIn lookup R ∧ ∀ u ∈ R, u ∈ pk :: S := by
  unfold MeetsQuorum at h
  refine ⟨_, List.elem_iff.mp h, ?_, ?_⟩
  · intro u hu
    have hfix := quorumFilterIter_fixed lookup
      (((pk :: S).dedup).filter (fun u => (lookup u).isSome)).length
      (((pk :: S).dedup).filter (fun u => (lookup u).isSome)) le_rfl
    rw [← hfix] at hu
    exact (mem_quorumFilterStep.mp hu).2
  · intro u hu
    have h1 := quorumFilterIter_subset lookup _ _ u hu
    exact List.mem_dedup.mp (List.mem_filter.mp h1).1

theorem meetsQuorum_complete {lookup : String → Option QuorumSlice} {pk : String}
    {S : List String} (R : List String) (hpk : pk ∈ R)
    (hquorum : IsQuorumIn lookup R) (hsub : ∀ u ∈ R, u ∈ pk :: S) :
    MeetsQuorum lookup pk S = true := by
  unfold MeetsQuorum
  have hRQ0 : ∀ u ∈ R, u ∈ ((pk :: S).dedup).filter (fun u => (lookup u).isSome) := by
    intro u hu
    apply List.mem_filter.mpr
    refine ⟨List.mem_dedup.mpr (hsub u hu), ?_⟩
    rcases hquorum u hu with ⟨qs, hl, _⟩
    simp [hl]
  exact List.elem_iff.mpr
    (quorumFilterIter_complete lookup R hquorum _ _ hRQ0 pk hpk)

theorem meetsQuorum_mono {lookup : String → Option QuorumSlice} {pk : String}
    {S S' : List String} (hsub : ∀ a ∈ S, a ∈ S')
    (h : MeetsQuorum lookup pk S = true) : MeetsQuorum lookup pk S' = true := by
  rcases meetsQuorum_sound h with ⟨R, hpk, hq, hR⟩
  apply meetsQuorum_complete R hpk hq
  intro u hu
  rcases List.mem_cons.mp (hR u hu) with h1 | h2
  · exact List.mem_cons.mpr (Or.inl h1)
  · exact List.mem_cons.mpr (Or.inr (hsub u h2))

theorem hasSlotValue_iff {l : List SlotValue} {v : SlotValue} :
    HasSlotValue l v = true ↔ v ∈ l := by
  unfold HasSlotValue Equal
  rw [List.any_eq_true]
  constructor
  · rintro ⟨w, hw, he⟩
    rw [beq_iff_eq] at he
    exact he ▸ hw
  · intro hv
    exact ⟨v, hv, beq_self_eq_true v⟩

theorem maybeAdvance_cases (s : NominationState) (v : SlotValue) :
    (s.MaybeAdvance v).1 = s ∨
    (s.MaybeAdvance v).1 = { s with Y := s.Y ++ [v] } ∨
    (s.MaybeAdvance v).1 = { s with Z := s.Z ++ [v] } ∨
    (s.MaybeAdvance v).1 = { s with Y := s.Y ++ [v], Z := s.Z ++ [v] } := by
  unfold NominationState.MaybeAdvance
  dsimp only
  repeat' split
  all_goals
    first
    | exact Or.inl rfl
    | exact Or.inr (Or.inl rfl)
    | exact Or.inr (Or.inr (Or.inl rfl))
    | exact Or.inr (Or.inr (Or.inr rfl))

theorem maybeAdvance_grows (s : NominationState) (v : SlotValue) :
    nomLe s (s.MaybeAdvance v).1 := by
  rcases maybeAdvance_cases s v with h | h | h | h <;> rw [nomLe, h] <;>
    refine ⟨fun w hw => ?_, fun w hw => ?_, fun w hw => ?_⟩ <;>
    simp_all [List.mem_append]

theorem maybeAdvance_frame (s : NominationState) (v : SlotValue) :
    (s.MaybeAdvance v).1.X = s.X ∧ (s.MaybeAdvance v).1.N = s.N ∧
    (s.MaybeAdvance v).1.publicKey = s.publicKey ∧ (s.MaybeAdvance v).1.D = s.D := by
  rcases maybeAdvance_cases s v with h | h | h | h <;> rw [h] <;>
    exact ⟨rfl, rfl, rfl, rfl⟩

theorem maybeAdvance_key (s : NominationState) (v : SlotValue)
    (h : v ∈ (s.MaybeAdvance v).1.Z) : v ∈ s.Z ∨ v ∈ (s.MaybeAdvance v).1.Y := by
  by_cases hz : HasSlotValue s.Z v = true
  · exact Or.inl (hasSlotValue_iff.mp hz)
  · by_cases hy : HasSlotValue s.Y v = true
    · right
      rcases (maybeAdvance_grows s v).2.1 v (hasSlotValue_iff.mp hy) with h2
      exact h2
    · -- v is not yet accepted; if it got confirmed, the accept rule must
      -- have fired first, via quorum monotonicity.
      rw [Bool.not_eq_true] at hz hy
      by_cases hacc : (MeetsQuorum (nomLookup s) s.publicKey
          ((if HasSlotValue s.X v = true then [s.publicKey] else []) ++
            List.map Prod.fst
              (List.filter (fun pr => HasSlotValue pr.2.Y v || HasSlotValue pr.2.X v) s.N)) ||
          s.D.BlockedBy
            (List.map Prod.fst (List.filter (fun pr => HasSlotValue pr.2.Y v) s.N))) = true
      · right
        rw [NominationState.MaybeAdvance]
        simp only [hz, hy, Bool.false_eq_true, if_false, Bool.not_false, Bool.and_true,
          List.nil_append, hacc, if_true]
        split <;> simp
      · left
        have hC : MeetsQuorum (nomLookup s) s.publicKey
            (List.map Prod.fst (List.filter (fun pr => HasSlotValue pr.2.Y v) s.N)) = false := by
          by_contra hC'
          rw [Bool.not_eq_false] at hC'
          apply hacc
          apply Bool.or_eq_true_iff.mpr
          left
          refine meetsQuorum_mono ?_ hC'
          intro a ha
          rcases List.mem_map.mp ha with ⟨pr, hpr, rfl⟩
          rcases List.mem_filter.mp hpr with ⟨hmem, hp2⟩
          apply List.mem_append.mpr
          right
          exact List.mem_map.mpr ⟨pr, List.mem_filter.mpr ⟨hmem, by simp [hp2]⟩, rfl⟩
        rw [Bool.not_eq_true] at hacc
        rw [NominationState.MaybeAdvance] at h
        simp only [hz, hy, Bool.false_eq_true, if_false, Bool.not_false, Bool.and_true,
          List.nil_append, hacc, hC] at h
        exact h

theorem maybeAdvance_Z_mem (s : NominationState) (v : SlotValue) :
    ∀ w ∈ (s.MaybeAdvance v).1.Z, w ∈ s.Z ∨ w = v := by
  rcases maybeAdvance_cases s v with h | h | h | h <;> rw [h] <;> intro w hw <;>
    simp_all [List.mem_append]

theorem maybeAdvance_inv (s : NominationState) (v : SlotValue) (hinv : NomInv s) :
    NomInv (s.MaybeAdvance v).1 := by
  intro w hw
  rcases maybeAdvance_Z_mem s v w hw with h1 | h1
  · exact (maybeAdvance_grows s v).2.1 w (hinv w h1)
  · rw [h1] at hw ⊢
    rcases maybeAdvance_key s v hw with h2 | h2
    · exact (maybeAdvance_grows s v).2.1 v (hinv v h2)
    · exact h2

theorem nomLe_refl (s : NominationState) : nomLe s s :=
  ⟨fun _ h => h, fun _ h => h, fun _ h => h⟩

theorem nomLe_trans (a b c : NominationState) (h1 : nomLe a b) (h2 : nomLe b c) :
    nomLe a c :=
  ⟨fun v hv => h2.1 v (h1.1 v hv), fun v hv => h2.2.1 v (h1.2.1 v hv),
    fun v hv => h2.2.2 v (h1.2.2 v hv)⟩

theorem advanceFold_grows : ∀ (l : List SlotValue) (s : NominationState),
    nomLe s (l.foldl (fun st v => (st.MaybeAdvance v).1) s) := by
  intro l
  induction l with
  | nil => intro s; exact nomLe_refl s
  | cons a as ih =>
    intro s
    exact nomLe_trans _ _ _ (maybeAdvance_grows s a) (ih _)

theorem xFold_grows : ∀ (l : List SlotValue) (t : List SlotValue) (s0 : NominationState),
    nomLe s0 ((l.foldl (fun (acc : List SlotValue × NominationState) xv =>
      (if HasSlotValue acc.1 xv then acc.1 else acc.1 ++ [xv],
       if HasSlotValue acc.2.X xv then acc.2
         else { X := acc.2.X ++ [xv], Y := acc.2.Y, Z := acc.2.Z, N := acc.2.N,
                publicKey := acc.2.publicKey, D := acc.2.D })) (t, s0))).2 := by
  intro l
  induction l with
  | nil => intro t s0; exact nomLe_refl s0
  | cons a as ih =>
    intro t s0
    dsimp only [List.foldl_cons]
    refine nomLe_trans _ _ _ ?_ (ih _ _)
    split
    · exact nomLe_refl s0
    · exact ⟨fun w hw => List.mem_append.mpr (Or.inl hw), fun _ h => h, fun _ h => h⟩

theorem handle_grows (s : NominationState) (node : String) (m : NominationMessage) :
    nomLe s (s.Handle node m) := by
  rw [NominationState.Handle]
  dsimp only
  split
  · exact nomLe_refl s
  split
  · exact nomLe_refl s
  split
  · exact nomLe_refl s
  refine nomLe_trans _ _ _ ?_ (advanceFold_grows _ _)
  refine nomLe_trans _ _ _ (?_ :
    nomLe s { s with N := updateAssoc s.N node m }) (xFold_grows _ _ _)
  exact ⟨fun _ h => h, fun _ h => h, fun _ h => h⟩

theorem advanceFold_inv : ∀ (l : List SlotValue) (s : NominationState), NomInv s →
    NomInv (l.foldl (fun st v => (st.MaybeAdvance v).1) s) := by
  intro l
  induction l with
  | nil => intro s h; exact h
  | cons a as ih => intro s h; exact ih _ (maybeAdvance_inv s a h)

theorem advanceFold_N : ∀ (l : List SlotValue) (s : NominationState),
    (l.foldl (fun st v => (st.MaybeAdvance v).1) s).N = s.N := by
  intro l
  induction l with
  | nil => intro s; rfl
  | cons a as ih =>
    intro s
    rw [List.foldl_cons, ih _, (maybeAdvance_frame s a).2.1]

theorem xFold_inv : ∀ (l t : List SlotValue) (s0 : NominationState), NomInv s0 →
    NomInv ((l.foldl (fun (acc : List SlotValue × NominationState) xv =>
      (if HasSlotValue acc.1 xv then acc.1 else acc.1 ++ [xv],
       if HasSlotValue acc.2.X xv then acc.2
         else { X := acc.2.X ++ [xv], Y := acc.2.Y, Z := acc.2.Z, N := acc.2.N,
                publicKey := acc.2.publicKey, D := acc.2.D })) (t, s0))).2 := by
  intro l
  induction l with
  | nil => intro t s0 h; exact h
  | cons a as ih =>
    intro t s0 h
    dsimp only [List.foldl_cons]
    apply ih
    split
    · exact h
    · exact h

theorem xFold_N : ∀ (l t : List SlotValue) (s0 : NominationState),
    ((l.foldl (fun (acc : List SlotValue × NominationState) xv =>
      (if HasSlotValue acc.1 xv then acc.1 else acc.1 ++ [xv],
       if HasSlotValue acc.2.X xv then acc.2
         else { X := acc.2.X ++ [xv], Y := acc.2.Y, Z := acc.2.Z, N := acc.2.N,
                publicKey := acc.2.publicKey, D := acc.2.D })) (t, s0))).2.N = s0.N := by
  intro l
  induction l with
  | nil => intro t s0; rfl
  | cons a as ih =>
    intro t s0
    dsimp only [List.foldl_cons]
    rw [ih]
    split <;> rfl

theorem handle_inv (s : NominationState) (node : String) (m : NominationMessage)
    (hinv : NomInv s) : NomInv (s.Handle node m) := by
  rw [NominationState.Handle]
  dsimp only
  split
  · exact hinv
  split
  · exact hinv
  split
  · exact hinv
  exact advanceFold_inv _ _ (xFold_inv _ _ _ hinv)

theorem handle_N (s : NominationState) (node : String) (m : NominationMessage) :
    s.Handle node m = s ∨ (s.Handle node m).N = updateAssoc s.N node m := by
  rw [NominationState.Handle]
  dsimp only
  split
  · exact Or.inl rfl
  split
  · exact Or.inl rfl
  split
  · exact Or.inl rfl
  right
  rw [advanceFold_N, xFold_N]

theorem lookup_updateAssoc {α : Type} (l : List (String × α)) (k : String) (v : α) :
    lookupAssoc (updateAssoc l k v) k = some v := by
  induction l with
  | nil => simp [updateAssoc, lookupAssoc]
  | cons p rest ih =>
    obtain ⟨k', v'⟩ := p
    rw [updateAssoc]
    split
    · rw [lookupAssoc]
      simp
    · rw [lookupAssoc]
      next hne => simp only [hne, if_false, ih, if_neg hne]

theorem handle_dupe (s2 : NominationState) (node : String) (m : NominationMessage)
    (h : lookupAssoc s2.N node = some m) : s2.Handle node m = s2 := by
  rw [NominationState.Handle]
  dsimp only
  rw [h]
  dsimp only
  rw [if_neg (lt_irrefl _), if_neg (lt_irrefl _), if_pos ⟨rfl, rfl⟩]

theorem handle_stale (s : NominationState) (node : String) (m : NominationMessage)
    (old : NominationMessage) (h : lookupAssoc s.N node = some old) :
    (m.X.length < old.X.length → s.Handle node m = s) ∧
    (m.Y.length < old.Y.length → s.Handle node m = s) ∧
    (m.X.length = old.X.length ∧ m.Y.length = old.Y.length → s.Handle node m = s) := by
  rw [NominationState.Handle]
  dsimp only
  rw [h]
  dsimp only
  refine ⟨fun hlt => by rw [if_pos hlt], fun hlt => ?_, fun heq => ?_⟩
  · by_cases h1 : m.X.length < old.X.length
    · rw [if_pos h1]
    · rw [if_neg h1, if_pos hlt]
  · rcases heq with ⟨h1, h2⟩
    rw [if_neg (by omega), if_neg (by omega), if_pos ⟨h1, h2⟩]

theorem handle_idem (s : NominationState) (node : String) (m : NominationMessage) :
    (s.Handle node m).Handle node m = s.Handle node m := by
  rcases handle_N s node m with h | h
  · rw [h]
    exact h
  · apply handle_dupe
    rw [h, lookup_updateAssoc]

theorem updatePrepared_effects (s1 : BallotState) (n : Int) (x : SlotValue) :
    (s1.updatePrepared n x).phase = s1.phase ∧
    (s1.updatePrepared n x).M = s1.M ∧
    (s1.updatePrepared n x).z = s1.z ∧
    (s1.updatePrepared n x).b = s1.b ∧
    (s1.updatePrepared n x).cn = s1.cn ∧
    (s1.updatePrepared n x).hn = s1.hn ∧
    (s1.updatePrepared n x).publicKey = s1.publicKey ∧
    (s1.updatePrepared n x).D = s1.D := by
  rw [BallotState.updatePrepared]
  repeat' split
  all_goals exact ⟨rfl, rfl, rfl, rfl, rfl, rfl, rfl, rfl⟩

theorem acceptAsPrepared_effects (s : BallotState) (n : Int) (x : SlotValue) :
    (s.MaybeAcceptAsPrepared n x).phase = s.phase ∧
    (s.MaybeAcceptAsPrepared n x).M = s.M ∧
    (s.MaybeAcceptAsPrepared n x).z = s.z ∧
    ((s.MaybeAcceptAsPrepared n x).b = s.b ∨ (s.MaybeAcceptAsPrepared n x).b = none) ∧
    (s.MaybeAcceptAsPrepared n x).publicKey = s.publicKey ∧
    (s.MaybeAcceptAsPrepared n x).D = s.D := by
  rw [BallotState.MaybeAcceptAsPrepared]
  repeat' split
  all_goals
    first
    | exact ⟨rfl, rfl, rfl, Or.inl rfl, rfl, rfl⟩
    | exact ⟨(updatePrepared_effects _ n x).1, (updatePrepared_effects _ n x).2.1,
        (updatePrepared_effects _ n x).2.2.1,
        Or.inr (updatePrepared_effects _ n x).2.2.2.1,
        (updatePrepared_effects _ n x).2.2.2.2.2.2.1,
        (updatePrepared_effects _ n x).2.2.2.2.2.2.2⟩
    | exact ⟨(updatePrepared_effects _ n x).1, (updatePrepared_effects _ n x).2.1,
        (updatePrepared_effects _ n x).2.2.1,
        Or.inl (updatePrepared_effects _ n x).2.2.2.1,
        (updatePrepared_effects _ n x).2.2.2.2.2.2.1,
        (updatePrepared_effects _ n x).2.2.2.2.2.2.2⟩

theorem confirmAsPrepared_effects (s : BallotState) (n : Int) (x : SlotValue) :
    (s.MaybeConfirmAsPrepared n x).phase = s.phase ∧
    (s.MaybeConfirmAsPrepared n x).M = s.M ∧
    (s.MaybeConfirmAsPrepared n x).p = s.p ∧
    (s.MaybeConfirmAsPrepared n x).pPrime = s.pPrime ∧
    (s.MaybeConfirmAsPrepared n x).publicKey = s.publicKey ∧
    (s.MaybeConfirmAsPrepared n x).D = s.D := by
  rw [BallotState.MaybeConfirmAsPrepared]
  repeat' split
  all_goals exact ⟨rfl, rfl, rfl, rfl, rfl, rfl⟩

theorem acceptAsCommitted_effects (s : BallotState) (n : Int) (x : SlotValue) :
    (s.MaybeAcceptAsCommitted n x).M = s.M ∧
    (s.MaybeAcceptAsCommitted n x).p = s.p ∧
    (s.MaybeAcceptAsCommitted n x).pPrime = s.pPrime ∧
    (s.MaybeAcceptAsCommitted n x).publicKey = s.publicKey ∧
    (s.MaybeAcceptAsCommitted n x).D = s.D ∧
    phaseIdx s.phase ≤ phaseIdx (s.MaybeAcceptAsCommitted n x).phase := by
  rw [BallotState.MaybeAcceptAsCommitted]
  split
  · exact ⟨rfl, rfl, rfl, rfl, rfl, le_refl _⟩
  next hext =>
  have hple : phaseIdx s.phase ≤ 1 := by
    cases hp : s.phase
    · exact Nat.zero_le 1
    · exact le_refl 1
    · exact absurd hp hext
  repeat' split
  all_goals exact ⟨rfl, rfl, rfl, rfl, rfl, by first | exact le_refl _ | exact hple⟩

theorem confirmAsCommitted_effects (s : BallotState) (n : Int) (x : SlotValue) :
    (s.MaybeConfirmAsCommitted n x).M = s.M ∧
    (s.MaybeConfirmAsCommitted n x).p = s.p ∧
    (s.MaybeConfirmAsCommitted n x).pPrime = s.pPrime ∧
    (s.MaybeConfirmAsCommitted n x).b = s.b ∧
    (s.MaybeConfirmAsCommitted n x).z = s.z ∧
    (s.MaybeConfirmAsCommitted n x).publicKey = s.publicKey ∧
    (s.MaybeConfirmAsCommitted n x).D = s.D ∧
    phaseIdx s.phase ≤ phaseIdx (s.MaybeConfirmAsCommitted n x).phase := by
  rw [BallotState.MaybeConfirmAsCommitted]
  repeat' split
  all_goals
    exact ⟨rfl, rfl, rfl, rfl, rfl, rfl, rfl, by cases s.phase <;> simp [phaseIdx]⟩

theorem maybeNextBallot_effects (s : BallotState) :
    (s.MaybeNextBallot).2.phase = s.phase ∧
    (s.MaybeNextBallot).2.M = s.M ∧
    (s.MaybeNextBallot).2.p = s.p ∧
    (s.MaybeNextBallot).2.pPrime = s.pPrime ∧
    (s.MaybeNextBallot).2.z = s.z ∧
    (s.MaybeNextBallot).2.cn = s.cn ∧
    (s.MaybeNextBallot).2.hn = s.hn ∧
    (s.MaybeNextBallot).2.publicKey = s.publicKey ∧
    (s.MaybeNextBallot).2.D = s.D := by
  rw [BallotState.MaybeNextBallot]
  repeat' split
  all_goals exact ⟨rfl, rfl, rfl, rfl, rfl, rfl, rfl, rfl, rfl⟩

theorem zinv_acceptAsPrepared (s : BallotState) (n : Int) (x : SlotValue)
    (h : ZInv s) : ZInv (s.MaybeAcceptAsPrepared n x) := by
  intro bb hb
  rw [(acceptAsPrepared_effects s n x).2.2.1]
  rcases (acceptAsPrepared_effects s n x).2.2.2.1 with hbb | hbb
  · rw [hbb] at hb
    exact h bb hb
  · rw [hbb] at hb
    simp at hb

theorem zinv_confirmAsPrepared (s : BallotState) (n : Int) (x : SlotValue)
    (h : ZInv s) : ZInv (s.MaybeConfirmAsPrepared n x) := by
  rw [BallotState.MaybeConfirmAsPrepared]
  repeat' split
  all_goals intro bb hb
  all_goals
    first
    | exact h bb hb
    | (simp only [Option.some.injEq] at hb; rw [← hb])

theorem zinv_acceptAsCommitted (s : BallotState) (n : Int) (x : SlotValue)
    (h : ZInv s) : ZInv (s.MaybeAcceptAsCommitted n x) := by
  rw [BallotState.MaybeAcceptAsCommitted]
  repeat' split
  all_goals intro bb hb
  all_goals
    first
    | exact h bb hb
    | (simp only [Option.some.injEq] at hb; rw [← hb])

theorem zinv_confirmAsCommitted (s : BallotState) (n : Int) (x : SlotValue)
    (h : ZInv s) : ZInv (s.MaybeConfirmAsCommitted n x) := by
  intro bb hb
  rw [(confirmAsCommitted_effects s n x).2.2.2.2.1]
  apply h bb
  rw [← (confirmAsCommitted_effects s n x).2.2.2.1]
  exact hb

theorem zinv_nextBallot (s : BallotState) (h : ZInv s) :
    ZInv (s.MaybeNextBallot).2 := by
  rw [BallotState.MaybeNextBallot]
  repeat' split
  all_goals intro bb hb
  all_goals
    first
    | exact h bb hb
    | (simp only [Option.some.injEq] at hb
       rw [← hb]
       dsimp only
       apply h
       assumption)

theorem pinv_of_frames {s r : BallotState} (hp : r.p = s.p) (hpp : r.pPrime = s.pPrime)
    (h : PInv s) : PInv r := by
  refine ⟨fun hs => ?_, fun pb ppb h1 h2 => ?_⟩
  · rw [hp]
    apply h.1
    rw [← hpp]
    exact hs
  · exact h.2 pb ppb (by rw [← hp]; exact h1) (by rw [← hpp]; exact h2)

theorem pinv_updatePrepared (s1 : BallotState) (n : Int) (x : SlotValue)
    (h : PInv s1) (hg5 : ∀ ppb, s1.pPrime = some ppb → ppb.n < n) :
    PInv (s1.updatePrepared n x) := by
  rw [BallotState.updatePrepared]
  split
  · -- p was null; by the invariant pPrime is null too
    next heq =>
    refine ⟨fun _ => rfl, fun pb ppb h1 h2 => ?_⟩
    have := h.1 (by rw [h2]; rfl)
    rw [heq] at this
    simp at this
  · next pb0 heq =>
    split
    · -- compatible: bump p.n to n
      next heqx =>
      refine ⟨fun _ => rfl, fun pb ppb h1 h2 => ?_⟩
      simp only [Option.some.injEq] at h1
      have hold := h.2 pb0 ppb heq h2
      refine ⟨?_, ?_⟩
      · rw [← h1]
        exact hold.1
      · rw [← h1]
        exact le_of_lt (hg5 ppb h2)
    · split
      · -- incompatible and n is at least p.n: shift p down to pPrime
        next heqx hle =>
        refine ⟨fun _ => rfl, fun pb ppb h1 h2 => ?_⟩
        simp only [Option.some.injEq] at h1 h2
        rw [heq] at h2
        simp only [Option.some.injEq] at h2
        refine ⟨?_, ?_⟩
        · rw [← h1, ← h2]
          simp only [Bool.not_eq_true] at heqx
          rw [Equal, beq_eq_false_iff_ne] at heqx
          intro hcontra
          exact heqx hcontra.symm
        · rw [← h1, ← h2]
          simp only [decide_eq_true_eq] at hle
          exact hle
      · -- incompatible and n below p.n: bump pPrime only
        next heqx hlt =>
        refine ⟨fun _ => by rw [heq]; rfl, fun pb ppb h1 h2 => ?_⟩
        simp only [Option.some.injEq] at h1 h2
        rw [heq] at h1
        simp only [Option.some.injEq] at h1
        refine ⟨?_, ?_⟩
        · rw [← h1, ← h2]
          simp only [Bool.not_eq_true] at heqx
          rw [Equal, beq_eq_false_iff_ne] at heqx
          exact heqx
        · rw [← h1, ← h2]
          simp only [decide_eq_true_eq] at hlt
          dsimp only
          omega

theorem pinv_acceptAsPrepared (s : BallotState) (n : Int) (x : SlotValue)
    (h : PInv s) : PInv (s.MaybeAcceptAsPrepared n x) := by
  rw [BallotState.MaybeAcceptAsPrepared]
  split
  · exact h
  split
  · exact h
  split
  · exact h
  split
  · exact h
  split
  · exact h
  next hg5 =>
  split
  · exact h
  apply pinv_updatePrepared
  · split
    · exact h
    · exact h
  · intro ppb hppb
    have hs : s.pPrime = some ppb := by
      revert hppb
      split <;> (intro hppb; exact hppb)
    rw [hs] at hg5
    simp only [decide_eq_true_eq] at hg5
    omega

theorem pinv_confirmAsPrepared (s : BallotState) (n : Int) (x : SlotValue)
    (h : PInv s) : PInv (s.MaybeConfirmAsPrepared n x) :=
  pinv_of_frames (confirmAsPrepared_effects s n x).2.2.1
    (confirmAsPrepared_effects s n x).2.2.2.1 h

theorem pinv_acceptAsCommitted (s : BallotState) (n : Int) (x : SlotValue)
    (h : PInv s) : PInv (s.MaybeAcceptAsCommitted n x) :=
  pinv_of_frames (acceptAsCommitted_effects s n x).2.1
    (acceptAsCommitted_effects s n x).2.2.1 h

theorem pinv_confirmAsCommitted (s : BallotState) (n : Int) (x : SlotValue)
    (h : PInv s) : PInv (s.MaybeConfirmAsCommitted n x) :=
  pinv_of_frames (confirmAsCommitted_effects s n x).2.1
    (confirmAsCommitted_effects s n x).2.2.1 h

theorem pinv_nextBallot (s : BallotState) (h : PInv s) :
    PInv (s.MaybeNextBallot).2 :=
  pinv_of_frames (maybeNextBallot_effects s).2.2.1
    (maybeNextBallot_effects s).2.2.2.1 h

theorem pinv_investigate (s : BallotState) (n : Int) (x : SlotValue)
    (h : PInv s) : PInv (s.Investigate n x) := by
  rw [BallotState.Investigate]
  exact pinv_confirmAsCommitted _ n x (pinv_acceptAsCommitted _ n x
    (pinv_confirmAsPrepared _ n x (pinv_acceptAsPrepared _ n x h)))

theorem zinv_investigate (s : BallotState) (n : Int) (x : SlotValue)
    (h : ZInv s) : ZInv (s.Investigate n x) := by
  rw [BallotState.Investigate]
  exact zinv_confirmAsCommitted _ n x (zinv_acceptAsCommitted _ n x
    (zinv_confirmAsPrepared _ n x (zinv_acceptAsPrepared _ n x h)))

theorem investigate_le (s : BallotState) (n : Int) (x : SlotValue) :
    phaseIdx s.phase ≤ phaseIdx (s.Investigate n x).phase := by
  rw [BallotState.Investigate]
  rw [← (acceptAsPrepared_effects s n x).1,
    ← (confirmAsPrepared_effects (s.MaybeAcceptAsPrepared n x) n x).1]
  exact le_trans
    (acceptAsCommitted_effects ((s.MaybeAcceptAsPrepared n x).MaybeConfirmAsPrepared
      n x) n x).2.2.2.2.2
    (confirmAsCommitted_effects (((s.MaybeAcceptAsPrepared n x).MaybeConfirmAsPrepared
      n x).MaybeAcceptAsCommitted n x) n x).2.2.2.2.2.2.2

theorem investigate_M (s : BallotState) (n : Int) (x : SlotValue) :
    (s.Investigate n x).M = s.M := by
  rw [BallotState.Investigate]
  rw [(confirmAsCommitted_effects _ n x).1, (acceptAsCommitted_effects _ n x).1,
    (confirmAsPrepared_effects _ n x).2.1, (acceptAsPrepared_effects s n x).2.1]

theorem investigate_pk (s : BallotState) (n : Int) (x : SlotValue) :
    (s.Investigate n x).publicKey = s.publicKey := by
  rw [BallotState.Investigate]
  rw [(confirmAsCommitted_effects _ n x).2.2.2.2.2.1,
    (acceptAsCommitted_effects _ n x).2.2.2.1,
    (confirmAsPrepared_effects _ n x).2.2.2.2.1,
    (acceptAsPrepared_effects s n x).2.2.2.2.1]

theorem investigateFold_le : ∀ (l : List Int) (s : BallotState) (xv : SlotValue),
    phaseIdx s.phase ≤
      phaseIdx ((l.foldl (fun st i => st.Investigate i xv) s)).phase := by
  intro l
  induction l with
  | nil => intro s xv; exact le_refl _
  | cons a as ih =>
    intro s xv
    exact le_trans (investigate_le s a xv) (ih _ xv)

theorem investigateFold_M : ∀ (l : List Int) (s : BallotState) (xv : SlotValue),
    ((l.foldl (fun st i => st.Investigate i xv) s)).M = s.M := by
  intro l
  induction l with
  | nil => intro s xv; rfl
  | cons a as ih =>
    intro s xv
    rw [List.foldl_cons, ih, investigate_M]

theorem investigateMessage_le (s : BallotState) (m : BallotMessage) :
    phaseIdx s.phase ≤ phaseIdx (s.InvestigateMessage m).phase := by
  cases m with
  | prepareMsg I bn bx pn px ppn ppx cn hn D =>
    rw [BallotState.InvestigateMessage]
    exact le_trans (investigate_le s bn bx) (le_trans (investigate_le _ pn px)
      (investigate_le _ ppn ppx))
  | confirmMsg I xv pn cn hn D =>
    rw [BallotState.InvestigateMessage]
    exact investigate_le s hn xv
  | externalizeMsg I xv cn hn D =>
    rw [BallotState.InvestigateMessage]
    exact investigateFold_le _ s xv

theorem investigateMessage_M (s : BallotState) (m : BallotMessage) :
    (s.InvestigateMessage m).M = s.M := by
  cases m with
  | prepareMsg I bn bx pn px ppn ppx cn hn D =>
    rw [BallotState.InvestigateMessage, investigate_M, investigate_M, investigate_M]
  | confirmMsg I xv pn cn hn D =>
    rw [BallotState.InvestigateMessage, investigate_M]
  | externalizeMsg I xv cn hn D =>
    rw [BallotState.InvestigateMessage, investigateFold_M]

theorem pinv_investigateMessage (s : BallotState) (m : BallotMessage)
    (h : PInv s) : PInv (s.InvestigateMessage m) := by
  cases m with
  | prepareMsg I bn bx pn px ppn ppx cn hn D =>
    rw [BallotState.InvestigateMessage]
    exact pinv_investigate _ ppn ppx (pinv_investigate _ pn px
      (pinv_investigate _ bn bx h))
  | confirmMsg I xv pn cn hn D =>
    rw [BallotState.InvestigateMessage]
    exact pinv_investigate _ hn xv h
  | externalizeMsg I xv cn hn D =>
    rw [BallotState.InvestigateMessage]
    induction intRangeList cn hn generalizing s with
    | nil => exact h
    | cons a as ih => exact ih _ (pinv_investigate _ a xv h)

theorem zinv_investigateMessage (s : BallotState) (m : BallotMessage)
    (h : ZInv s) : ZInv (s.InvestigateMessage m) := by
  cases m with
  | prepareMsg I bn bx pn px ppn ppx cn hn D =>
    rw [BallotState.InvestigateMessage]
    exact zinv_investigate _ ppn ppx (zinv_investigate _ pn px
      (zinv_investigate _ bn bx h))
  | confirmMsg I xv pn cn hn D =>
    rw [BallotState.InvestigateMessage]
    exact zinv_investigate _ hn xv h
  | externalizeMsg I xv cn hn D =>
    rw [BallotState.InvestigateMessage]
    induction intRangeList cn hn generalizing s with
    | nil => exact h
    | cons a as ih => exact ih _ (zinv_investigate _ a xv h)

theorem handleLoop_le (m : BallotMessage) : ∀ (fuel : Nat) (s : BallotState),
    phaseIdx s.phase ≤ phaseIdx (BallotState.HandleLoop m fuel s).phase := by
  intro fuel
  induction fuel with
  | zero => intro s; exact le_refl _
  | succ f ih =>
    intro s
    rw [BallotState.HandleLoop]
    split
    next s2 heq =>
      have h1 : s2.phase = (s.InvestigateMessage m).phase := by
        have h2 := (maybeNextBallot_effects (s.InvestigateMessage m)).1
        rw [heq] at h2
        exact h2
      refine le_trans (investigateMessage_le s m) ?_
      rw [← h1]
      exact ih s2
    next s2 heq =>
      have h1 : s2.phase = (s.InvestigateMessage m).phase := by
        have h2 := (maybeNextBallot_effects (s.InvestigateMessage m)).1
        rw [heq] at h2
        exact h2
      rw [h1]
      exact investigateMessage_le s m

theorem handleLoop_M (m : BallotMessage) : ∀ (fuel : Nat) (s : BallotState),
    (BallotState.HandleLoop m fuel s).M = s.M := by
  intro fuel
  induction fuel with
  | zero => intro s; rfl
  | succ f ih =>
    intro s
    rw [BallotState.HandleLoop]
    split
    next s2 heq =>
      have h1 : s2.M = (s.InvestigateMessage m).M := by
        have h2 := (maybeNextBallot_effects (s.InvestigateMessage m)).2.1
        rw [heq] at h2
        exact h2
      rw [ih s2, h1, investigateMessage_M]
    next s2 heq =>
      have h1 : s2.M = (s.InvestigateMessage m).M := by
        have h2 := (maybeNextBallot_effects (s.InvestigateMessage m)).2.1
        rw [heq] at h2
        exact h2
      rw [h1, investigateMessage_M]

theorem pinv_handleLoop (m : BallotMessage) : ∀ (fuel : Nat) (s : BallotState),
    PInv s → PInv (BallotState.HandleLoop m fuel s) := by
  intro fuel
  induction fuel with
  | zero => intro s h; exact h
  | succ f ih =>
    intro s h
    rw [BallotState.HandleLoop]
    split
    next s2 heq =>
      apply ih
      have h2 := pinv_nextBallot _ (pinv_investigateMessage s m h)
      rw [heq] at h2
      exact h2
    next s2 heq =>
      have h2 := pinv_nextBallot _ (pinv_investigateMessage s m h)
      rw [heq] at h2
      exact h2

theorem zinv_handleLoop (m : BallotMessage) : ∀ (fuel : Nat) (s : BallotState),
    ZInv s → ZInv (BallotState.HandleLoop m fuel s) := by
  intro fuel
  induction fuel with
  | zero => intro s h; exact h
  | succ f ih =>
    intro s h
    rw [BallotState.HandleLoop]
    split
    next s2 heq =>
      apply ih
      have h2 := zinv_nextBallot _ (zinv_investigateMessage s m h)
      rw [heq] at h2
      exact h2
    next s2 heq =>
      have h2 := zinv_nextBallot _ (zinv_investigateMessage s m h)
      rw [heq] at h2
      exact h2

theorem handleB_le (s : BallotState) (fuel : Nat) (node : String)
    (msg : BallotMessage) :
    phaseIdx s.phase ≤ phaseIdx (s.Handle fuel node msg).phase := by
  rw [BallotState.Handle]
  split
  · split
    · exact le_refl _
    · exact handleLoop_le msg (fuel + 1) { s with M := updateAssoc s.M node msg }
  · exact handleLoop_le msg (fuel + 1) { s with M := updateAssoc s.M node msg }

theorem pinv_handleB (s : BallotState) (fuel : Nat) (node : String)
    (msg : BallotMessage) (h : PInv s) : PInv (s.Handle fuel node msg) := by
  rw [BallotState.Handle]
  split
  · split
    · exact h
    · exact pinv_handleLoop msg _ _ h
  · exact pinv_handleLoop msg _ _ h

theorem zinv_handleB (s : BallotState) (fuel : Nat) (node : String)
    (msg : BallotMessage) (h : ZInv s) : ZInv (s.Handle fuel node msg) := by
  rw [BallotState.Handle]
  split
  · split
    · exact h
    · exact zinv_handleLoop msg _ _ h
  · exact zinv_handleLoop msg _ _ h

theorem balRun_le : ∀ (evs : List BalEvent) (s : BallotState),
    phaseIdx s.phase ≤ phaseIdx (balRun s evs).phase := by
  intro evs
  induction evs with
  | nil => intro s; exact le_refl _
  | cons e es ih =>
    intro s
    exact le_trans (handleB_le s e.fuel e.node e.message) (ih _)

theorem pinv_balRun : ∀ (evs : List BalEvent) (s : BallotState),
    PInv s → PInv (balRun s evs) := by
  intro evs
  induction evs with
  | nil => intro s h; exact h
  | cons e es ih =>
    intro s h
    exact ih _ (pinv_handleB s e.fuel e.node e.message h)

theorem zinv_balRun : ∀ (evs : List BalEvent) (s : BallotState),
    ZInv s → ZInv (balRun s evs) := by
  intro evs
  induction evs with
  | nil => intro s h; exact h
  | cons e es ih =>
    intro s h
    exact ih _ (zinv_handleB s e.fuel e.node e.message h)

theorem listCompareInt_self : ∀ l : List Int, listCompareInt l l = 0 := by
  intro l
  induction l with
  | nil => rfl
  | cons a as ih =>
    rw [listCompareInt]
    simp [lt_irrefl, ih]

theorem compare_self (m : BallotMessage) : Compare m m = 0 := by
  rw [Compare]
  simp [lt_irrefl, listCompareInt_self]

theorem handleB_M (s : BallotState) (fuel : Nat) (node : String)
    (msg : BallotMessage) :
    (∃ old, lookupAssoc s.M node = some old ∧ 0 ≤ Compare old msg ∧
      s.Handle fuel node msg = s) ∨
      (s.Handle fuel node msg).M = updateAssoc s.M node msg := by
  rw [BallotState.Handle]
  split
  next old hlook =>
    split
    next hcmp => exact Or.inl ⟨old, hlook, hcmp, rfl⟩
    next hcmp =>
      right
      rw [handleLoop_M]
  next hlook =>
    right
    rw [handleLoop_M]

theorem handleB_dupe (s2 : BallotState) (fuel : Nat) (node : String)
    (msg : BallotMessage) (h : lookupAssoc s2.M node = some msg) :
    s2.Handle fuel node msg = s2 := by
  rw [BallotState.Handle]
  rw [h]
  dsimp only
  rw [if_pos (le_of_eq (compare_self msg).symm)]

theorem handleB_stale (s : BallotState) (fuel : Nat) (node : String)
    (msg old : BallotMessage) (h : lookupAssoc s.M node = some old)
    (hcmp : 0 ≤ Compare old msg) : s.Handle fuel node msg = s := by
  rw [BallotState.Handle]
  rw [h]
  dsimp only
  rw [if_pos hcmp]

theorem handleB_idem (s : BallotState) (f1 f2 : Nat) (node : String)
    (msg : BallotMessage) :
    (s.Handle f1 node msg).Handle f2 node msg = s.Handle f1 node msg := by
  rcases handleB_M s f1 node msg with ⟨old, hl, hc, heq⟩ | h
  · rw [heq]
    exact handleB_stale s f2 node msg old hl hc
  · apply handleB_dupe
    rw [h, lookup_updateAssoc]

theorem setDefault_grows (s : NominationState) (v : SlotValue) :
    nomLe s (s.SetDefault v) := by
  rw [NominationState.SetDefault]
  split
  · exact nomLe_refl s
  next h =>
    have hX : s.X = [] := by
      rw [NominationState.HasNomination] at h
      simp only [decide_eq_true_eq, Nat.not_lt, Nat.le_zero] at h
      exact List.length_eq_zero.mp h
    refine ⟨fun w hw => ?_, fun w hw => hw, fun w hw => hw⟩
    rw [hX] at hw
    cases hw

theorem setDefault_inv (s : NominationState) (v : SlotValue) (h : NomInv s) :
    NomInv (s.SetDefault v) := by
  rw [NominationState.SetDefault]
  split
  · exact h
  · exact h

theorem nomApply_grows (s : NominationState) (e : NomEvent) :
    nomLe s (nomApply s e) := by
  cases e with
  | setDefault v => exact setDefault_grows s v
  | advance v => exact maybeAdvance_grows s v
  | handle node m => exact handle_grows s node m

theorem nomApply_inv (s : NominationState) (e : NomEvent) (h : NomInv s) :
    NomInv (nomApply s e) := by
  cases e with
  | setDefault v => exact setDefault_inv s v h
  | advance v => exact maybeAdvance_inv s v h
  | handle node m => exact handle_inv s node m h

theorem nomRun_grows : ∀ (evs : List NomEvent) (s : NominationState),
    nomLe s (nomRun s evs) := by
  intro evs
  induction evs with
  | nil => intro s; exact nomLe_refl s
  | cons e es ih =>
    intro s
    exact nomLe_trans _ _ _ (nomApply_grows s e) (ih _)

theorem nomRun_inv : ∀ (evs : List NomEvent) (s : NominationState),
    NomInv s → NomInv (nomRun s evs) := by
  intro evs
  induction evs with
  | nil => intro s h; exact h
  | cons e es ih =>
    intro s h
    exact ih _ (nomApply_inv s e h)

/-- C1 (counterexample): the claimed containment `Y ⊆ X` fails on the code.
A peer whose message carries an accepted value `v` in `Y` but not in `X`
makes the node accept and confirm `v` (here via a 2-of-"me","a" slice met
by the singleton message), so `v` enters `Y` and `Z` while `X` stays
empty. -/
theorem C1_counterexample :
    ¬ (∀ v ∈ ((NewNominationState "me" { Members := ["me", "a"], Threshold := 2 }).Handle
        "a" { I := 1, X := [], Y := ["v"], D := { Members := ["a"], Threshold := 1 } }).Y,
        v ∈ ((NewNominationState "me" { Members := ["me", "a"], Threshold := 2 }).Handle
        "a" { I := 1, X := [], Y := ["v"], D := { Members := ["a"], Threshold := 1 } }).X) := by
  decide

/-- C1 (amended): for every `NominationState`, after any sequence of
`SetDefault`, `Handle` and `MaybeAdvance` calls, the containment `Z ⊆ Y`
holds (from the all-empty initial state), a value that enters `Z` never
leaves it, and the sets `X`, `Y`, `Z` only ever grow — but `Y ⊆ X` does
not hold in general. -/
theorem C1_nomination_growth_and_confirmed_accepted :
    (∀ (s : NominationState) (e : NomEvent), nomLe s (nomApply s e)) ∧
    (∀ (s : NominationState) (e : NomEvent), NomInv s → NomInv (nomApply s e)) ∧
    (∀ (pk : String) (qs : QuorumSlice) (evs : List NomEvent),
      NomInv (nomRun (NewNominationState pk qs) evs)) ∧
    (∀ (s : NominationState) (evs : List NomEvent), nomLe s (nomRun s evs)) := by
  refine ⟨nomApply_grows, nomApply_inv, ?_, fun s evs => nomRun_grows evs s⟩
  intro pk qs evs
  exact nomRun_inv evs _ (fun v hv => absurd hv (by simp [NewNominationState]))

/-- C1 (witness): the invariant-preservation conjunct applied at a
concrete state and event. -/
theorem C1_witness :
    NomInv (nomApply (NewNominationState "me" { Members := ["me"], Threshold := 1 })
      (NomEvent.setDefault "v")) :=
  C1_nomination_growth_and_confirmed_accepted.2.1 _ (NomEvent.setDefault "v")
    (fun v hv => absurd hv (by simp [NewNominationState]))

/-- C2: on a newly built `StateBuilder` the `bState` pointer is nil — the
struct literal in `NewStateBuilder` never sets it and nothing constructs
it later — so `OutgoingMessages` dereferences nil in
`sb.bState.HasMessage()` and panics (modelled as `none`) instead of
returning the nomination message. -/
theorem C2_fresh_builder_outgoing_messages_panics :
    ∀ (pk : String) (members : List String) (threshold : Nat) (comment : String),
      (NewStateBuilder pk members threshold).OutgoingMessages comment = none := by
  intro pk members threshold comment
  rfl

/-- C3: for every `BallotState` and every sequence of `Handle` calls, the
phase only advances in the order `Prepare → Confirm → Externalize`;
moreover the two prepare-side operations (which perform the aborts) never
change the phase and are no-ops outside the Prepare phase. -/
theorem C3_phase_monotone :
    (∀ (s : BallotState) (n : Int) (x : SlotValue),
      (s.MaybeAcceptAsPrepared n x).phase = s.phase) ∧
    (∀ (s : BallotState) (n : Int) (x : SlotValue),
      (s.MaybeConfirmAsPrepared n x).phase = s.phase) ∧
    (∀ (s : BallotState) (n : Int) (x : SlotValue), s.phase ≠ Phase.Prepare →
      s.MaybeAcceptAsPrepared n x = s) ∧
    (∀ (s : BallotState) (n : Int) (x : SlotValue), s.phase ≠ Phase.Prepare →
      s.MaybeConfirmAsPrepared n x = s) ∧
    (∀ (s : BallotState) (evs : List BalEvent),
      phaseIdx s.phase ≤ phaseIdx (balRun s evs).phase) := by
  refine ⟨fun s n x => (acceptAsPrepared_effects s n x).1,
    fun s n x => (confirmAsPrepared_effects s n x).1,
    fun s n x h => ?_, fun s n x h => ?_, fun s evs => balRun_le evs s⟩
  · rw [BallotState.MaybeAcceptAsPrepared, if_pos h]
  · rw [BallotState.MaybeConfirmAsPrepared, if_pos h]

/-- C3 (witness): the no-op conjunct applied at a concrete state in the
Confirm phase. -/
theorem C3_witness :
    BallotState.MaybeAcceptAsPrepared
      { NewBallotState "me" { Members := ["me"], Threshold := 1 } with
        phase := Phase.Confirm } 1 "v" =
      { NewBallotState "me" { Members := ["me"], Threshold := 1 } with
        phase := Phase.Confirm } :=
  C3_phase_monotone.2.2.1 _ 1 "v" (by decide)

/-- C4 (counterexample): accepting `(2, "b")` and then `(2, "a")` as
prepared from a fresh single-node state leaves `p = (2, "a")` and
`p' = (2, "b")` with equal numbers, and `p` is not strictly greater than
`p'` in the lexicographic ballot order. -/
theorem C4_counterexample :
    (((NewBallotState "me" { Members := ["me"], Threshold := 1 }).MaybeAcceptAsPrepared
        2 "b").MaybeAcceptAsPrepared 2 "a").p = some ⟨2, "a"⟩ ∧
    (((NewBallotState "me" { Members := ["me"], Threshold := 1 }).MaybeAcceptAsPrepared
        2 "b").MaybeAcceptAsPrepared 2 "a").pPrime = some ⟨2, "b"⟩ ∧
    ballotLexGt ⟨2, "a"⟩ ⟨2, "b"⟩ = false := by
  decide

/-- C4 (amended): in every reachable `BallotState`, whenever `p` and `p'`
are both non-null they are incompatible, and `p.n ≥ p'.n` (the strict
lexicographic order fails when the numbers are equal); the invariant holds
initially and is preserved by `MaybeAcceptAsPrepared` and by every
sequence of `Handle` calls. -/
theorem C4_prepared_pair_invariant :
    (∀ (pk : String) (qs : QuorumSlice), PInv (NewBallotState pk qs)) ∧
    (∀ (s : BallotState) (n : Int) (x : SlotValue), PInv s →
      PInv (s.MaybeAcceptAsPrepared n x)) ∧
    (∀ (s : BallotState) (evs : List BalEvent), PInv s → PInv (balRun s evs)) := by
  refine ⟨?_, pinv_acceptAsPrepared, fun s evs h => pinv_balRun evs s h⟩
  intro pk qs
  exact ⟨fun h => by simp [NewBallotState] at h,
    fun pb ppb h1 h2 => by simp [NewBallotState] at h1⟩

/-- C4 (witness): the preservation conjunct applied at a concrete state. -/
theorem C4_witness :
    PInv ((NewBallotState "me" { Members := ["me"], Threshold := 1
      }).MaybeAcceptAsPrepared 2 "b") :=
  C4_prepared_pair_invariant.2.1 _ 2 "b"
    ⟨fun h => absurd h (by decide), fun pb ppb h1 _ => absurd h1 (by simp [NewBallotState])⟩

/-- C5: stale and duplicate peer messages cause no state mutation:
`NominationState.Handle` is the identity when the incoming `X` or `Y` list
is shorter than the stored one's or both lengths are unchanged;
`BallotState.Handle` is the identity when a stored message compares at
least as high; and processing a duplicate of the last message is the same
as processing the sequence once. -/
theorem C5_stale_and_duplicate_messages_frame :
    (∀ (s : NominationState) (node : String) (m old : NominationMessage),
      lookupAssoc s.N node = some old →
      (m.X.length < old.X.length → s.Handle node m = s) ∧
      (m.Y.length < old.Y.length → s.Handle node m = s) ∧
      (m.X.length = old.X.length ∧ m.Y.length = old.Y.length → s.Handle node m = s)) ∧
    (∀ (s : BallotState) (fuel : Nat) (node : String) (msg old : BallotMessage),
      lookupAssoc s.M node = some old → 0 ≤ Compare old msg →
      s.Handle fuel node msg = s) ∧
    (∀ (s : NominationState) (node : String) (m : NominationMessage),
      (s.Handle node m).Handle node m = s.Handle node m) ∧
    (∀ (s : BallotState) (f1 f2 : Nat) (node : String) (msg : BallotMessage),
      (s.Handle f1 node msg).Handle f2 node msg = s.Handle f1 node msg) ∧
    (∀ (s : NominationState) (S : List NomEvent) (node : String)
        (m : NominationMessage),
      nomRun s (S ++ [NomEvent.handle node m, NomEvent.handle node m]) =
        nomRun s (S ++ [NomEvent.handle node m])) ∧
    (∀ (s : BallotState) (S : List BalEvent) (e : BalEvent),
      balRun s (S ++ [e, e]) = balRun s (S ++ [e])) := by
  refine ⟨handle_stale, handleB_stale, handle_idem, handleB_idem, ?_, ?_⟩
  · intro s S node m
    simp only [nomRun, List.foldl_append, List.foldl_cons, List.foldl_nil, nomApply]
    exact handle_idem _ node m
  · intro s S e
    simp only [balRun, List.foldl_append, List.foldl_cons, List.foldl_nil]
    exact handleB_idem _ e.fuel e.fuel e.node e.message

/-- C5 (witness): the stale-`X` conjunct applied at a concrete state whose
stored message for node "a" has a longer `X` than the incoming one. -/
theorem C5_witness :
    NominationState.Handle
      { X := []
        Y := []
        Z := []
        N := [("a", { I := 1, X := ["u"], Y := [], D := { Members := ["a"], Threshold := 1 } })]
        publicKey := "me"
        D := { Members := ["me"], Threshold := 1 } } "a"
      { I := 1, X := [], Y := [], D := { Members := ["a"], Threshold := 1 } } =
    { X := []
      Y := []
      Z := []
      N := [("a", { I := 1, X := ["u"], Y := [], D := { Members := ["a"], Threshold := 1 } })]
      publicKey := "me"
      D := { Members := ["me"], Threshold := 1 } } :=
  (C5_stale_and_duplicate_messages_frame.1
    { X := []
      Y := []
      Z := []
      N := [("a", { I := 1, X := ["u"], Y := [], D := { Members := ["a"], Threshold := 1 } })]
      publicKey := "me"
      D := { Members := ["me"], Threshold := 1 } } "a"
    { I := 1, X := [], Y := [], D := { Members := ["a"], Threshold := 1 } }
    { I := 1, X := ["u"], Y := [], D := { Members := ["a"], Threshold := 1 } }
    rfl).1 (by decide)

/-- C6: in every reachable `BallotState`, whenever `b` is non-null, `z` is
non-null and equals `b.x`; the agreement holds initially and is preserved
by all five operations and by every sequence of `Handle` calls. -/
theorem C6_z_agrees_with_b :
    (∀ (pk : String) (qs : QuorumSlice), ZInv (NewBallotState pk qs)) ∧
    (∀ (s : BallotState) (n : Int) (x : SlotValue), ZInv s →
      ZInv (s.MaybeAcceptAsPrepared n x)) ∧
    (∀ (s : BallotState) (n : Int) (x : SlotValue), ZInv s →
      ZInv (s.MaybeConfirmAsPrepared n x)) ∧
    (∀ (s : BallotState) (n : Int) (x : SlotValue), ZInv s →
      ZInv (s.MaybeAcceptAsCommitted n x)) ∧
    (∀ (s : BallotState) (n : Int) (x : SlotValue), ZInv s →
      ZInv (s.MaybeConfirmAsCommitted n x)) ∧
    (∀ s : BallotState, ZInv s → ZInv (s.MaybeNextBallot).2) ∧
    (∀ (s : BallotState) (evs : List BalEvent), ZInv s → ZInv (balRun s evs)) := by
  refine ⟨?_, zinv_acceptAsPrepared, zinv_confirmAsPrepared, zinv_acceptAsCommitted,
    zinv_confirmAsCommitted, zinv_nextBallot, fun s evs h => zinv_balRun evs s h⟩
  intro pk qs bb hb
  exact absurd hb (by simp [NewBallotState])

/-- C6 (witness): the `MaybeConfirmAsPrepared` conjunct applied at a
concrete one-node state, which adopts the ballot and sets `z`. -/
theorem C6_witness :
    ZInv ((NewBallotState "me" { Members := ["me"], Threshold := 1
      }).MaybeConfirmAsPrepared 2 "v") :=
  C6_z_agrees_with_b.2.2.1 _ 2 "v"
    (fun bb hb => absurd hb (by simp [NewBallotState]))

/-- C7 (counterexample): the equivalence "PredictValue fails exactly when
HasNomination() is false" does not hold: a state reachable by one Handle
call has `X = []` (so `HasNomination` is false) yet `Y` and `Z` non-empty,
and `PredictValue` succeeds. -/
theorem C7_counterexample :
    ((NewNominationState "me" { Members := ["me", "a"], Threshold := 2 }).Handle
      "a" { I := 1, X := [], Y := ["v"], D := { Members := ["a"], Threshold := 1 }
      }).HasNomination = false ∧
    ((NewNominationState "me" { Members := ["me", "a"], Threshold := 2 }).Handle
      "a" { I := 1, X := [], Y := ["v"], D := { Members := ["a"], Threshold := 1 }
      }).PredictValue = some "v" := by
  decide

/-- C7 (amended): `PredictValue` returns `CombineSlice Z` when `Z` is
non-empty, else the combination of `Y`, else of `X`, and fails exactly
when all three sets are empty; failing implies `HasNomination()` is false,
but not conversely. -/
theorem C7_predict_value_priority :
    ∀ s : NominationState,
      (0 < s.Z.length → s.PredictValue = some (CombineSlice s.Z)) ∧
      (s.Z = [] → 0 < s.Y.length → s.PredictValue = some (CombineSlice s.Y)) ∧
      (s.Z = [] → s.Y = [] → 0 < s.X.length →
        s.PredictValue = some (CombineSlice s.X)) ∧
      (s.PredictValue = none ↔ s.Z = [] ∧ s.Y = [] ∧ s.X = []) ∧
      (s.PredictValue = none → s.HasNomination = false) := by
  intro s
  rw [NominationState.PredictValue]
  refine ⟨fun h => by rw [if_pos h], fun hz hy => ?_, fun hz hy hx => ?_, ?_, ?_⟩
  · rw [if_neg (by rw [hz]; simp), if_pos hy]
  · rw [if_neg (by rw [hz]; simp), if_neg (by rw [hy]; simp), if_pos hx]
  · constructor
    · intro h
      by_cases hz : 0 < s.Z.length
      · rw [if_pos hz] at h
        cases h
      · by_cases hy : 0 < s.Y.length
        · rw [if_neg hz, if_pos hy] at h
          cases h
        · by_cases hx : 0 < s.X.length
          · rw [if_neg hz, if_neg hy, if_pos hx] at h
            cases h
          · exact ⟨List.length_eq_zero.mp (by omega),
              List.length_eq_zero.mp (by omega), List.length_eq_zero.mp (by omega)⟩
    · rintro ⟨hz, hy, hx⟩
      rw [if_neg (by simp [hz]), if_neg (by simp [hy]), if_neg (by simp [hx])]
  · intro h
    rw [NominationState.HasNomination]
    by_cases hz : 0 < s.Z.length
    · rw [if_pos hz] at h
      cases h
    · by_cases hy : 0 < s.Y.length
      · rw [if_neg hz, if_pos hy] at h
        cases h
      · by_cases hx : 0 < s.X.length
        · rw [if_neg hz, if_neg hy, if_pos hx] at h
          cases h
        · simp only [decide_eq_false_iff_not]
          exact hx

/-- C7 (witness): the `Z`-priority conjunct applied at a concrete state. -/
theorem C7_witness :
    NominationState.PredictValue
      { X := []
        Y := []
        Z := ["v"]
        N := []
        publicKey := "me"
        D := { Members := ["me"], Threshold := 1 } } =
      some (CombineSlice ["v"]) :=
  (C7_predict_value_priority _).1 (by decide)

/-- C8: `MaybeNextBallot` returns false with no state change when `z` or
`b` is null; otherwise, with `higher` the peers whose latest message
carries a ballot number above `b.n`, it increments `b.n` by one and
returns true exactly when `higher` blocks the own slice `D`, changing no
other field, and otherwise returns false with no change. -/
theorem C8_maybe_next_ballot_spec :
    (∀ s : BallotState, s.z = none ∨ s.b = none →
      s.MaybeNextBallot = (false, s)) ∧
    (∀ (s : BallotState) (bb : Ballot), s.b = some bb → s.z ≠ none →
      (s.D.BlockedBy ((s.M.filter
          (fun pr => decide (bb.n < pr.2.BallotNumber))).map Prod.fst) = true →
        s.MaybeNextBallot = (true, { s with b := some ⟨bb.n + 1, bb.x⟩ })) ∧
      (s.D.BlockedBy ((s.M.filter
          (fun pr => decide (bb.n < pr.2.BallotNumber))).map Prod.fst) = false →
        s.MaybeNextBallot = (false, s))) := by
  constructor
  · intro s h
    rw [BallotState.MaybeNextBallot]
    rcases h with h | h <;> rw [h] <;>
      first
      | rfl
      | (cases s.b <;> rfl)
  · intro s bb hb hz
    cases hzv : s.z with
    | none => exact absurd hzv hz
    | some zz =>
      rw [BallotState.MaybeNextBallot, hb, hzv]
      dsimp only
      refine ⟨fun hbl => ?_, fun hbl => ?_⟩
      · rw [if_pos hbl]
      · rw [hbl]
        rfl

/-- C8 (witness): the null-`z` conjunct applied at the initial state. -/
theorem C8_witness :
    (NewBallotState "me" { Members := ["me"], Threshold := 1 }).MaybeNextBallot =
      (false, NewBallotState "me" { Members := ["me"], Threshold := 1 }) :=
  C8_maybe_next_ballot_spec.1 _ (Or.inl rfl)

/-- C9: for every registered operation, decoding its encoding succeeds and
returns the same operation; encoding a nil operation panics (`none`); and
decoding fails on an unregistered type string or a null payload. -/
theorem C9_operation_encoding_roundtrip :
    (∀ (registry : List String) (m : Operation) (e : EncodedOperation),
      registry.contains m.OperationType = true → EncodeOperation (some m) = some e →
      DecodeOperation registry e = Except.ok m) ∧
    EncodeOperation none = none ∧
    (∀ (registry : List String) (e : EncodedOperation),
      registry.contains e.T = false →
      DecodeOperation registry e = Except.error "unregistered op type") ∧
    (∀ (registry : List String) (t : String), registry.contains t = true →
      DecodeOperation registry { T := t, O := OpPayload.nullPayload } =
        Except.error "it looks like a nil operation got encoded") := by
  refine ⟨?_, rfl, ?_, ?_⟩
  · intro registry m e hreg henc
    rw [EncodeOperation] at henc
    injection henc with henc
    rw [← henc, DecodeOperation, if_pos hreg]
  · intro registry e hreg
    rw [DecodeOperation, if_neg (by rw [hreg]; simp)]
  · intro registry t hreg
    rw [DecodeOperation, if_pos hreg]

/-- C9 (witness): the round-trip conjunct applied to a concrete registered
operation. -/
theorem C9_witness :
    DecodeOperation ["Testing"]
      { T := "Testing", O := OpPayload.opOf (Operation.testing 5 "s") } =
      Except.ok (Operation.testing 5 "s") :=
  C9_operation_encoding_roundtrip.1 ["Testing"] (Operation.testing 5 "s") _
    (by decide) rfl

/-- C10: for every `BallotState` in any phase and every value `x`,
`MaybeAcceptAsPrepared 0 x` — the case arising when `Handle` investigates
the `Pn`/`Ppn` fields of a `PrepareMessage` encoding a null ballot as 0 —
leaves every field unchanged, so a ballot numbered 0 is never stored in
`p` or `p'`. -/
theorem C10_zero_ballot_noop :
    ∀ (s : BallotState) (x : SlotValue), s.MaybeAcceptAsPrepared 0 x = s := by
  intro s x
  rw [BallotState.MaybeAcceptAsPrepared]
  split
  · rfl
  · rw [if_pos rfl]

end Coinkit
